import Mathlib

/-!
Shallow embedding of the recipe extraction and normalization pipeline of
`ai_engine.py` (repository `pedal88/buildyourmeal`).

Python strings are modelled as `List Char`; Python `str.lower` / `str.strip` /
`str.title` are modelled on their ASCII behavior (all inputs appearing in the
claims are ASCII).  The pantry set (`pantry_names`, a Python `set`) is modelled
as a duplicate-free list whose order stands for the set's iteration order, and
the pantry dict (`pantry_map`) as an insertion-ordered association list with
overwrite-on-repeated-key, matching Python `dict` semantics.
-/

namespace BYM

/-- Python strings, modelled as lists of characters. -/
abbrev Str := List Char

/-- Model of Python `str.lower` on one character (ASCII range). -/
def lowerChar (c : Char) : Char :=
  if 65 ≤ c.toNat ∧ c.toNat ≤ 90 then Char.ofNat (c.toNat + 32) else c

/-- Model of Python `str.lower` (ASCII range). -/
def lowerStr (s : Str) : Str := s.map lowerChar

/-- Characters removed by Python `str.strip()` with no argument. -/
def isPyWs (c : Char) : Bool :=
  c = ' ' || c = '\t' || c = '\n' || c = '\r' || c = '\x0b' || c = '\x0c'

/-- Model of Python `str.strip()`: drop leading and trailing whitespace. -/
def pyStrip (s : Str) : Str :=
  ((s.dropWhile isPyWs).reverse.dropWhile isPyWs).reverse

/-- Does `s` start with `pat`?  Model of Python `str.startswith`. -/
def startsW : Str → Str → Bool
  | [], _ => true
  | _ :: _, [] => false
  | a :: as, b :: bs => a = b && startsW as bs

/-- Model of Python `needle in hay` on strings (contiguous substring). -/
def strIn (needle hay : Str) : Bool :=
  match hay with
  | [] => needle.isEmpty
  | _ :: rest => startsW needle hay || strIn needle rest

/-- One pantry snapshot item, as consumed by `set_pantry_memory`
(`item['i']` is the identifier, `item['n']` the display name; the category,
unit and tag fields are carried but never read by the pipeline core). -/
structure PantryItem where
  i : Str
  n : Str
  c : Str
  u : Str
  t : List Str
deriving DecidableEq

/-- The module-level pantry state of `ai_engine.py`: `pantry_map` (dict) and
`pantry_names` (set). -/
structure PantryState where
  map : List (Str × Str)
  names : List Str
deriving DecidableEq

/-- Python `dict` assignment `m[k] = v`: overwrite in place, else append. -/
def dictInsert (m : List (Str × Str)) (k v : Str) : List (Str × Str) :=
  match m with
  | [] => [(k, v)]
  | (k', v') :: rest =>
    if k' = k then (k', v) :: rest else (k', v') :: dictInsert rest k v

/-- Python `dict.get`: value of the (unique) binding of `k`, if any. -/
def dictGet (m : List (Str × Str)) (k : Str) : Option Str :=
  match m with
  | [] => none
  | (k', v') :: rest => if k' = k then some v' else dictGet rest k

/-- Python `set.add` on the list model of a set. -/
def setAdd (s : List Str) (x : Str) : List Str :=
  if x ∈ s then s else s ++ [x]

/-- Loop body of `set_pantry_memory`: bind the lower-cased name to the id in
`pantry_map` and add it to `pantry_names`. -/
def buildStep (st : PantryState) (item : PantryItem) : PantryState :=
  { map := dictInsert st.map (lowerStr item.n) item.i
    names := setAdd st.names (lowerStr item.n) }

/-- Embedding of `set_pantry_memory(slim_context)` from `ai_engine.py`
lines 22-31: both globals are cleared (`clear()`), then for each item the
lower-cased name is bound to its id in `pantry_map` and added to
`pantry_names`.  The pre-state argument represents the globals before the
call; the clearing discards it. -/
def set_pantry_memory (_old : PantryState) (slim_context : List PantryItem) :
    PantryState :=
  slim_context.foldl buildStep ⟨[], []⟩

/-- Embedding of `get_pantry_id(name)` from `ai_engine.py` line 376-377:
`pantry_map.get(name.lower())`. -/
def get_pantry_id (st : PantryState) (name : Str) : Option Str :=
  dictGet st.map (lowerStr name)

/-! ### Model of `difflib` sequence matching

`difflib.get_close_matches(word, possibilities, n=1, cutoff=0.6)` filters the
possibilities whose `SequenceMatcher(None, x, word).ratio()` is at least the
cutoff (the `real_quick_ratio`/`quick_ratio` pre-filters are upper bounds of
`ratio`, so they do not change the filtered set) and returns the largest
surviving `(ratio, x)` pair (via `heapq.nlargest`, which compares the pairs
lexicographically, so ratio ties are broken towards the lexicographically
larger string).  `ratio` is the Ratcliff-Obershelp similarity
`2*M/(len(a)+len(b))` where `M` totals the recursively chosen longest matching
blocks.  The strings involved are far below the 200-character autojunk
threshold, so the junk heuristic never fires and is not modelled. -/

/-- Length of the longest common prefix of two strings. -/
def commonLen : Str → Str → Nat
  | a :: as, b :: bs => if a = b then commonLen as bs + 1 else 0
  | _, _ => 0

/-- Model of `SequenceMatcher.find_longest_match` over whole strings (no
junk): the triple `(i, j, k)` with maximal `k` such that `a[i:i+k] = b[j:j+k]`,
ties resolved towards the smallest `i`, then the smallest `j`. -/
def findLongestMatch (a b : Str) : Nat × Nat × Nat :=
  (List.range a.length).foldl
    (fun best i =>
      (List.range b.length).foldl
        (fun best j =>
          let k := commonLen (a.drop i) (b.drop j)
          if best.2.2 < k then (i, j, k) else best)
        best)
    (0, 0, 0)

/-- Total size of the matching blocks of `SequenceMatcher.get_matching_blocks`
(fuel-based recursion on shrinking slices; `a.length + b.length` fuel always
suffices). -/
def matchesTotal : Nat → Str → Str → Nat
  | 0, _, _ => 0
  | fuel + 1, a, b =>
    let t := findLongestMatch a b
    if t.2.2 = 0 then 0
    else
      matchesTotal fuel (a.take t.1) (b.take t.2.1) + t.2.2 +
        matchesTotal fuel (a.drop (t.1 + t.2.2)) (b.drop (t.2.1 + t.2.2))

/-- Numerator of `SequenceMatcher(None, a, b).ratio()` (`2*M`, with the
ratio defined as `1` when both strings are empty). -/
def rnum (a b : Str) : Nat :=
  if a.length + b.length = 0 then 1
  else 2 * matchesTotal (a.length + b.length) a b

/-- Denominator of `SequenceMatcher(None, a, b).ratio()` (total length,
`1` when both strings are empty); always positive. -/
def rden (a b : Str) : Nat :=
  if a.length + b.length = 0 then 1 else a.length + b.length

/-- Model of `SequenceMatcher(None, a, b).ratio()` as an exact rational. -/
def ratioQ (a b : Str) : ℚ := (rnum a b : ℚ) / (rden a b : ℚ)

/-- Python string `<` (code-point lexicographic). -/
def lexLt : Str → Str → Bool
  | [], [] => false
  | [], _ :: _ => true
  | _ :: _, [] => false
  | a :: as, b :: bs =>
    if a.toNat < b.toNat then true
    else if b.toNat < a.toNat then false
    else lexLt as bs

/-- Does candidate `x` pass the 0.6 cutoff against `w`?  Stated by
cross-multiplication over `Nat` so that the kernel can evaluate it;
equivalent to `3/5 ≤ ratioQ x w` (proved below). -/
def cutoffOk (x w : Str) : Bool :=
  decide (3 * rden x w ≤ 5 * rnum x w)

/-- Is `ratioQ x w` strictly greater than `ratioQ y w`?  Cross-multiplied
over `Nat`. -/
def ratioGtB (x y w : Str) : Bool :=
  decide (rnum y w * rden x w < rnum x w * rden y w)

/-- Are `ratioQ x w` and `ratioQ y w` equal?  Cross-multiplied over `Nat`. -/
def ratioEqB (x y w : Str) : Bool :=
  decide (rnum x w * rden y w = rnum y w * rden x w)

/-- Is the pair `(ratio x w, x)` strictly larger than `(ratio best w, best)`
in the tuple order used by `heapq.nlargest`? -/
def betterCand (w x best : Str) : Bool :=
  ratioGtB x best w || (ratioEqB x best w && lexLt best x)

/-- Fold picking the `nlargest`-maximal candidate starting from `c`. -/
def bestFold (w c : Str) (l : List Str) : Str :=
  l.foldl (fun best x => if betterCand w x best then x else best) c

/-- Model of `difflib.get_close_matches(w, names, n=1, cutoff=0.6)`, returning
the single best match if any candidate survives the cutoff. -/
def get_close_matches1 (w : Str) (names : List Str) : Option Str :=
  match names.filter (fun x => cutoffOk x w) with
  | [] => none
  | c :: cs => some (bestFold w c cs)

/-- Embedding of `IngredientSchema.validate_ingredient_name` (`ai_engine.py`
lines 66-85): normalize, then exact set membership, then
`difflib.get_close_matches(..., n=1, cutoff=0.6)`, then the first
either-direction substring match in set iteration order, then the normalized
name itself as an import name. -/
def validate_ingredient_name (st : PantryState) (v : Str) : Str :=
  if pyStrip (lowerStr v) ∈ st.names then pyStrip (lowerStr v)
  else
    match get_close_matches1 (pyStrip (lowerStr v)) st.names with
    | some m => m
    | none =>
      match st.names.find?
          (fun p => strIn (pyStrip (lowerStr v)) p ||
            strIn p (pyStrip (lowerStr v))) with
      | some p => p
      | none => pyStrip (lowerStr v)

/-- The single closest pantry name by similarity ratio (the spec's wording for
the fuzzy tier): maximum over the whole name set, same tie-breaking. -/
def closestName (w : Str) (names : List Str) : Option Str :=
  match names with
  | [] => none
  | c :: cs => some (bestFold w c cs)

/-- Resolver written exactly as the specification words it: (1) exact
membership of the lower-cased trimmed name; (2) the single closest pantry name
by sequence-similarity ratio, accepted only if the similarity is at least 0.6;
(3) the first pantry name in substring relation with the input; (4) the
normalized raw name as an import name. -/
def resolveSpec (st : PantryState) (v : Str) : Str :=
  if pyStrip (lowerStr v) ∈ st.names then pyStrip (lowerStr v)
  else
    match closestName (pyStrip (lowerStr v)) st.names with
    | some m =>
      if cutoffOk m (pyStrip (lowerStr v)) then m
      else
        match st.names.find?
            (fun p => strIn (pyStrip (lowerStr v)) p ||
              strIn p (pyStrip (lowerStr v))) with
        | some p => p
        | none => pyStrip (lowerStr v)
    | none =>
      match st.names.find?
          (fun p => strIn (pyStrip (lowerStr v)) p ||
            strIn p (pyStrip (lowerStr v))) with
      | some p => p
      | none => pyStrip (lowerStr v)

/-! ### Equivalence of the filtered fold with "closest, then cutoff" -/

lemma rden_pos (a b : Str) : 0 < rden a b := by
  unfold rden; split <;> omega

lemma rdenQ_pos (a b : Str) : (0 : ℚ) < (rden a b : ℚ) := by
  exact_mod_cast rden_pos a b

lemma cutoffOk_iff (x w : Str) :
    cutoffOk x w = true ↔ (3 : ℚ) / 5 ≤ ratioQ x w := by
  rw [cutoffOk, ratioQ, decide_eq_true_eq,
    div_le_div_iff₀ (by norm_num) (rdenQ_pos x w)]
  constructor
  · intro h
    have h' : ((3 * rden x w : Nat) : ℚ) ≤ ((5 * rnum x w : Nat) : ℚ) := by
      exact_mod_cast h
    push_cast at h'
    linarith
  · intro h
    have h' : ((3 * rden x w : Nat) : ℚ) ≤ ((5 * rnum x w : Nat) : ℚ) := by
      push_cast
      linarith
    exact_mod_cast h'

lemma ratioGtB_iff (x y w : Str) :
    ratioGtB x y w = true ↔ ratioQ y w < ratioQ x w := by
  rw [ratioGtB, ratioQ, ratioQ, decide_eq_true_eq,
    div_lt_div_iff₀ (rdenQ_pos y w) (rdenQ_pos x w)]
  constructor
  · intro h
    have h' : ((rnum y w * rden x w : Nat) : ℚ) <
        ((rnum x w * rden y w : Nat) : ℚ) := by exact_mod_cast h
    push_cast at h'
    linarith
  · intro h
    have h' : ((rnum y w * rden x w : Nat) : ℚ) <
        ((rnum x w * rden y w : Nat) : ℚ) := by push_cast; linarith
    exact_mod_cast h'

lemma ratioEqB_iff (x y w : Str) :
    ratioEqB x y w = true ↔ ratioQ x w = ratioQ y w := by
  rw [ratioEqB, ratioQ, ratioQ, decide_eq_true_eq,
    div_eq_div_iff (ne_of_gt (rdenQ_pos x w)) (ne_of_gt (rdenQ_pos y w))]
  constructor
  · intro h
    have h' : ((rnum x w * rden y w : Nat) : ℚ) =
        ((rnum y w * rden x w : Nat) : ℚ) := by exact_mod_cast h
    push_cast at h'
    linarith
  · intro h
    have h' : ((rnum x w * rden y w : Nat) : ℚ) =
        ((rnum y w * rden x w : Nat) : ℚ) := by push_cast; linarith
    exact_mod_cast h'

lemma betterCand_ratio_ge {w x c : Str} (hb : betterCand w x c = true) :
    ratioQ c w ≤ ratioQ x w := by
  rw [betterCand, Bool.or_eq_true, Bool.and_eq_true] at hb
  rcases hb with h | ⟨h, _⟩
  · exact le_of_lt ((ratioGtB_iff x c w).mp h)
  · exact le_of_eq ((ratioEqB_iff x c w).mp h).symm

lemma betterCand_false_of_lt {w x c : Str} (h : ratioQ x w < ratioQ c w) :
    betterCand w x c = false := by
  have h1 : ratioGtB x c w = false := by
    rw [← Bool.not_eq_true, ratioGtB_iff]
    linarith
  have h2 : ratioEqB x c w = false := by
    rw [← Bool.not_eq_true, ratioEqB_iff]
    intro he
    linarith
  simp [betterCand, h1, h2]

lemma betterCand_true_of_lt {w x c : Str} (h : ratioQ c w < ratioQ x w) :
    betterCand w x c = true := by
  have h1 : ratioGtB x c w = true := (ratioGtB_iff x c w).mpr h
  simp [betterCand, h1]

lemma bestFold_cons (w c x : Str) (l : List Str) :
    bestFold w c (x :: l) = bestFold w (if betterCand w x c then x else c) l :=
  rfl

lemma cutoff_bestFold (w : Str) :
    ∀ (l : List Str) (c : Str), cutoffOk c w = true →
      cutoffOk (bestFold w c l) w = true := by
  intro l
  induction l with
  | nil => intro c hc; exact hc
  | cons x l ih =>
    intro c hc
    rw [bestFold_cons]
    by_cases hb : betterCand w x c = true
    · rw [if_pos hb]
      apply ih
      have hge := betterCand_ratio_ge hb
      rw [cutoffOk_iff] at hc ⊢
      linarith
    · rw [if_neg hb]
      exact ih c hc

lemma bestFold_filter (w : Str) :
    ∀ (l : List Str) (c : Str), cutoffOk c w = true →
      bestFold w c (l.filter (fun x => cutoffOk x w)) = bestFold w c l := by
  intro l
  induction l with
  | nil => intro c _; rfl
  | cons x l ih =>
    intro c hc
    cases hx : cutoffOk x w with
    | true =>
      have hfil : List.filter (fun y => cutoffOk y w) (x :: l) =
          x :: List.filter (fun y => cutoffOk y w) l := by
        simp [List.filter_cons, hx]
      rw [hfil, bestFold_cons, bestFold_cons]
      by_cases hb : betterCand w x c = true
      · rw [if_pos hb]
        apply ih
        have hge := betterCand_ratio_ge hb
        rw [cutoffOk_iff] at hc ⊢
        linarith
      · rw [if_neg hb]
        exact ih c hc
    | false =>
      have hfil : List.filter (fun y => cutoffOk y w) (x :: l) =
          List.filter (fun y => cutoffOk y w) l := by
        simp [List.filter_cons, hx]
      rw [hfil, bestFold_cons]
      have hlt : ratioQ x w < ratioQ c w := by
        rw [cutoffOk_iff] at hc
        have hx' : ¬ (3 : ℚ) / 5 ≤ ratioQ x w := by
          rw [← cutoffOk_iff, hx]; simp
        push_neg at hx'
        linarith
      rw [betterCand_false_of_lt hlt, if_neg (by simp)]
      exact ih c hc

lemma gcm_aux (w : Str) :
    ∀ (l : List Str) (c : Str), cutoffOk c w = false →
      get_close_matches1 w l =
        (if cutoffOk (bestFold w c l) w then some (bestFold w c l)
         else none) := by
  intro l
  induction l with
  | nil =>
    intro c hc
    simp [get_close_matches1, bestFold, hc]
  | cons a as ih =>
    intro c hc
    cases ha : cutoffOk a w with
    | true =>
      have hlt : ratioQ c w < ratioQ a w := by
        rw [cutoffOk_iff] at ha
        have hc' : ¬ (3 : ℚ) / 5 ≤ ratioQ c w := by
          rw [← cutoffOk_iff, hc]; simp
        push_neg at hc'
        linarith
      rw [bestFold_cons, if_pos (betterCand_true_of_lt hlt)]
      have hfil : List.filter (fun y => cutoffOk y w) (a :: as) =
          a :: List.filter (fun y => cutoffOk y w) as := by
        simp [List.filter_cons, ha]
      have hstep : get_close_matches1 w (a :: as) =
          some (bestFold w a (List.filter (fun y => cutoffOk y w) as)) := by
        unfold get_close_matches1
        rw [hfil]
      rw [hstep, bestFold_filter w as a ha,
        if_pos (cutoff_bestFold w as a ha)]
    | false =>
      rw [bestFold_cons]
      have hc' : cutoffOk (if betterCand w a c then a else c) w = false := by
        split <;> assumption
      rw [← ih _ hc']
      unfold get_close_matches1
      have hfil : List.filter (fun y => cutoffOk y w) (a :: as) =
          List.filter (fun y => cutoffOk y w) as := by
        simp [List.filter_cons, ha]
      rw [hfil]

/-- The filtered-then-maximized `get_close_matches` computation agrees with
the specification's "single closest name, accepted only if it passes the
cutoff" description. -/
lemma gcm_eq_closest (w : Str) (names : List Str) :
    get_close_matches1 w names =
      (closestName w names).bind
        (fun m => if cutoffOk m w then some m else none) := by
  cases names with
  | nil => rfl
  | cons n ns =>
    cases hn : cutoffOk n w with
    | true =>
      have hfil : List.filter (fun y => cutoffOk y w) (n :: ns) =
          n :: List.filter (fun y => cutoffOk y w) ns := by
        simp [List.filter_cons, hn]
      have hstep : get_close_matches1 w (n :: ns) =
          some (bestFold w n (List.filter (fun y => cutoffOk y w) ns)) := by
        unfold get_close_matches1
        rw [hfil]
      rw [hstep, bestFold_filter w ns n hn]
      show some (bestFold w n ns) =
        if cutoffOk (bestFold w n ns) w = true then some (bestFold w n ns)
        else none
      rw [if_pos (cutoff_bestFold w ns n hn)]
    | false =>
      have h := gcm_aux w ns n hn
      unfold get_close_matches1 at h ⊢
      have hfil : List.filter (fun y => cutoffOk y w) (n :: ns) =
          List.filter (fun y => cutoffOk y w) ns := by
        simp [List.filter_cons, hn]
      rw [hfil]
      rw [h]
      rfl

/-- Claim C1: for every pantry index and every raw ingredient name the
resolver is a total function whose result is computed by trying, in order
with first hit winning: (1) exact membership of the lower-cased trimmed
name in the pantry name set; (2) the single closest pantry name by
sequence-similarity ratio, accepted only if the similarity is at least 0.6;
(3) the first pantry name in substring relation (either direction) with the
normalized input; (4) the normalized raw name itself as an import name.
`resolveSpec` is that four-tier description transcribed from the
specification; `validate_ingredient_name` is the embedding of the source. -/
theorem C1_resolver_four_tiers (st : PantryState) (v : Str) :
    validate_ingredient_name st v = resolveSpec st v := by
  unfold validate_ingredient_name resolveSpec
  by_cases hm : pyStrip (lowerStr v) ∈ st.names
  · rw [if_pos hm, if_pos hm]
  · rw [if_neg hm, if_neg hm, gcm_eq_closest]
    cases hc : closestName (pyStrip (lowerStr v)) st.names with
    | none => rfl
    | some m =>
      have hb : ((some m).bind fun x =>
            if cutoffOk x (pyStrip (lowerStr v)) = true then some x
            else none) =
          if cutoffOk m (pyStrip (lowerStr v)) = true then some m
          else none := rfl
      by_cases hcut : cutoffOk m (pyStrip (lowerStr v)) = true
      · simp [hcut]
      · simp [hcut]

set_option maxRecDepth 200000

/-- Pantry state whose name set contains exactly `pork`. -/
def pantryPork : PantryState :=
  set_pantry_memory ⟨[], []⟩ [⟨("001").data, ("Pork").data, ("Meat").data, ("g").data, []⟩]

/-- Claim C2: with a pantry name set containing exactly `pork`, resolving
`minced pork` yields `pork`, produced by the substring tier: the fuzzy tier
finds no candidate because the similarity ratio of pantry name `pork`
against `minced pork` is `8/15`, strictly below the `0.6` cutoff, while
`pork` is a substring of `minced pork`. -/
theorem C2_minced_pork_substring :
    pantryPork.names = [("pork").data] ∧
    validate_ingredient_name pantryPork (("minced pork").data) = ("pork").data ∧
    get_close_matches1 (("minced pork").data) pantryPork.names = none ∧
    pantryPork.names.find?
      (fun p => strIn (("minced pork").data) p ||
        strIn p (("minced pork").data)) = some (("pork").data) ∧
    ratioQ (("pork").data) (("minced pork").data) < (3 : ℚ) / 5 := by
  refine ⟨by decide, by decide, by decide, by decide, ?_⟩
  have h1 : rnum (("pork").data) (("minced pork").data) = 8 := by decide
  have h2 : rden (("pork").data) (("minced pork").data) = 15 := by decide
  rw [ratioQ, h1, h2]
  norm_num

/-- The avocado snapshot of claim C3 (`id "000322"`, name `Avocado`). -/
def avocadoSnapshot : List PantryItem :=
  [⟨("000322").data, ("Avocado").data, ("Fruit").data, ("piece").data, []⟩]

/-- An arbitrary non-empty previous pantry state, discarded by the rebuild. -/
def stalePantry : PantryState :=
  ⟨[(("flour").data, ("777").data)], [("flour").data]⟩

/-- Claim C3: after rebuilding the pantry index from a snapshot holding
`{i: "000322", n: "Avocado"}`, resolving `avocado` hits the exact-match
tier (the normalized name is in the name set and is returned unchanged) and
the identifier lookup returns the string `"000322"` verbatim — identifiers
are carried as strings end to end, so the leading zeros survive. -/
theorem C3_avocado_exact_and_id :
    pyStrip (lowerStr (("avocado").data)) ∈
      (set_pantry_memory stalePantry avocadoSnapshot).names ∧
    validate_ingredient_name (set_pantry_memory stalePantry avocadoSnapshot)
      (("avocado").data) = ("avocado").data ∧
    get_pantry_id (set_pantry_memory stalePantry avocadoSnapshot)
      (("avocado").data) = some (("000322").data) := by
  refine ⟨by decide, by decide, by decide⟩

/-! ### Pantry rebuild characterization (claims C9, C10) -/

lemma toNat_ofNat_char (n : Nat) (h : n < 55296) : (Char.ofNat n).toNat = n := by
  simp [Char.ofNat, Char.ofNatAux, Char.toNat, Nat.isValidChar, h]
  rfl

lemma lowerChar_of_upper {c : Char} (h : 65 ≤ c.toNat ∧ c.toNat ≤ 90) :
    lowerChar c = Char.ofNat (c.toNat + 32) := if_pos h

lemma lowerChar_of_not {c : Char} (h : ¬(65 ≤ c.toNat ∧ c.toNat ≤ 90)) :
    lowerChar c = c := if_neg h

lemma lowerChar_idem (c : Char) : lowerChar (lowerChar c) = lowerChar c := by
  by_cases h : 65 ≤ c.toNat ∧ c.toNat ≤ 90
  · rw [lowerChar_of_upper h]
    apply lowerChar_of_not
    rw [toNat_ofNat_char (c.toNat + 32) (by omega)]
    omega
  · rw [lowerChar_of_not h, lowerChar_of_not h]

lemma lowerStr_fixed {s : Str} (h : ∀ c ∈ s, lowerChar c = c) :
    lowerStr s = s := by
  induction s with
  | nil => rfl
  | cons c cs ih =>
    have hc := h c (List.mem_cons_self c cs)
    have hrest : ∀ d ∈ cs, lowerChar d = d := fun d hd =>
      h d (List.mem_cons_of_mem c hd)
    simp [lowerStr] at ih ⊢
    exact ⟨hc, ih hrest⟩

lemma mem_pyStrip {c : Char} {s : Str} (h : c ∈ pyStrip s) : c ∈ s := by
  unfold pyStrip at h
  have h1 := List.mem_reverse.mp h
  have h2 := (List.dropWhile_sublist (l := (s.dropWhile isPyWs).reverse)
    (p := isPyWs)).subset h1
  have h3 := List.mem_reverse.mp h2
  exact (List.dropWhile_sublist (l := s) (p := isPyWs)).subset h3

lemma lowerStr_pyStrip_lowerStr (v : Str) :
    lowerStr (pyStrip (lowerStr v)) = pyStrip (lowerStr v) := by
  apply lowerStr_fixed
  intro c hc
  have hmem : c ∈ lowerStr v := mem_pyStrip hc
  obtain ⟨d, _, hd⟩ := List.mem_map.mp hmem
  rw [← hd]
  exact lowerChar_idem d

lemma dictGet_insert (m : List (Str × Str)) (k v k' : Str) :
    dictGet (dictInsert m k v) k' =
      if k = k' then some v else dictGet m k' := by
  induction m with
  | nil => simp [dictInsert, dictGet]
  | cons kv rest ih =>
    obtain ⟨k2, v2⟩ := kv
    by_cases h2 : k2 = k
    · subst h2
      simp [dictInsert, dictGet]
      by_cases h' : k2 = k'
      · subst h'; simp [dictGet]
      · simp [dictGet, h']
    · simp [dictInsert, h2, dictGet]
      by_cases h' : k2 = k'
      · subst h'
        have hkk : ¬ k = k2 := fun he => h2 he.symm
        simp [dictGet, hkk]
      · simp [dictGet, h', ih]

lemma mem_setAdd {s : List Str} {x y : Str} :
    y ∈ setAdd s x ↔ y ∈ s ∨ y = x := by
  unfold setAdd
  by_cases h : x ∈ s
  · simp only [if_pos h]
    constructor
    · exact Or.inl
    · rintro (hy | rfl)
      · exact hy
      · exact h
  · simp [if_neg h]

lemma build_names (l : List PantryItem) :
    ∀ (acc : PantryState) (x : Str),
      x ∈ (l.foldl buildStep acc).names ↔
        x ∈ acc.names ∨ ∃ it ∈ l, lowerStr it.n = x := by
  induction l with
  | nil => intro acc x; simp
  | cons it l ih =>
    intro acc x
    rw [List.foldl_cons, ih]
    constructor
    · rintro (hacc | hrest)
      · rcases mem_setAdd.mp hacc with hy | rfl
        · exact Or.inl hy
        · exact Or.inr ⟨it, List.mem_cons_self it l, rfl⟩
      · obtain ⟨j, hj, hjx⟩ := hrest
        exact Or.inr ⟨j, List.mem_cons_of_mem it hj, hjx⟩
    · rintro (hacc | ⟨j, hj, hjx⟩)
      · exact Or.inl (mem_setAdd.mpr (Or.inl hacc))
      · rcases List.mem_cons.mp hj with rfl | hj'
        · exact Or.inl (mem_setAdd.mpr (Or.inr hjx.symm))
        · exact Or.inr ⟨j, hj', hjx⟩

lemma build_map (l : List PantryItem) :
    ∀ (acc : PantryState) (x : Str),
      dictGet (l.foldl buildStep acc).map x =
        (l.reverse.find? (fun it => decide (lowerStr it.n = x))).elim
          (dictGet acc.map x) (fun it => some it.i) := by
  induction l with
  | nil => intro acc x; rfl
  | cons it l ih =>
    intro acc x
    rw [List.foldl_cons, ih, List.reverse_cons, List.find?_append]
    cases hf : l.reverse.find? (fun it => decide (lowerStr it.n = x)) with
    | some j => rfl
    | none =>
      by_cases hx : lowerStr it.n = x
      · simp [List.find?, hx, buildStep, dictGet_insert]
      · simp [List.find?, hx, buildStep, dictGet_insert]

/-- A snapshot whose display name carries surrounding whitespace. -/
def paddedSnapshot : List PantryItem :=
  [⟨("9").data, (" Avocado ").data, ("Fruit").data, ("piece").data, []⟩]

/-- Claim C9, counterexample: `set_pantry_memory` lower-cases but does NOT
trim names, so for a snapshot item named `" Avocado "` the rebuilt name set
is `\x7b" avocado "\x7d` and the lower-cased trimmed form `"avocado"` is not
in it — the name set is not the set of lower-cased-trimmed snapshot
names. -/
theorem C9_counterexample_no_trim :
    (set_pantry_memory stalePantry paddedSnapshot).names =
      [(" avocado ").data] ∧
    pyStrip (lowerStr ((" Avocado ").data)) = ("avocado").data ∧
    pyStrip (lowerStr ((" Avocado ").data)) ∉
      (set_pantry_memory stalePantry paddedSnapshot).names := by
  refine ⟨by decide, by decide, by decide⟩

/-- Claim C9 (amended: the index keys are the lower-cased — not trimmed —
snapshot names): rebuilding the pantry index fully discards the previous
state (the result does not depend on it); afterwards the name set is
exactly the set of lower-cased names of the new snapshot; the map holds a
binding exactly for the names in that set; and on duplicate lower-cased
names the identifier of the last snapshot occurrence wins. -/
theorem C9_rebuild_replaces_state (old₁ old₂ : PantryState)
    (snap : List PantryItem) :
    set_pantry_memory old₁ snap = set_pantry_memory old₂ snap ∧
    (∀ x : Str, x ∈ (set_pantry_memory old₁ snap).names ↔
      ∃ it ∈ snap, lowerStr it.n = x) ∧
    (∀ x : Str, (dictGet (set_pantry_memory old₁ snap).map x).isSome ↔
      x ∈ (set_pantry_memory old₁ snap).names) ∧
    (∀ x : Str, dictGet (set_pantry_memory old₁ snap).map x =
      (snap.reverse.find? (fun it => decide (lowerStr it.n = x))).elim
        none (fun it => some it.i)) := by
  unfold set_pantry_memory
  refine ⟨rfl, ?_, ?_, ?_⟩
  · intro x
    exact (build_names snap ⟨[], []⟩ x).trans (by simp)
  · intro x
    rw [build_names snap ⟨[], []⟩ x, build_map snap ⟨[], []⟩ x]
    cases hf : snap.reverse.find? (fun it => decide (lowerStr it.n = x)) with
    | some j =>
      have hj := List.mem_of_find?_eq_some hf
      have hjx : lowerStr j.n = x := by
        have := List.find?_some hf
        exact of_decide_eq_true this
      simp only [Option.elim, Option.isSome]
      constructor
      · intro _
        exact Or.inr ⟨j, List.mem_reverse.mp hj, hjx⟩
      · intro _; trivial
    | none =>
      simp only [Option.elim, Option.isSome]
      constructor
      · intro h; exact absurd h (by simp [dictGet])
      · rintro (h | ⟨j, hj, hjx⟩)
        · simp at h
        · exfalso
          have := List.find?_eq_none.mp hf j (List.mem_reverse.mpr hj)
          rw [hjx] at this
          simp at this
  · intro x
    exact build_map snap ⟨[], []⟩ x

/-- Any fold-selected best candidate is the seed or comes from the list. -/
lemma bestFold_mem (w : Str) :
    ∀ (l : List Str) (c : Str), bestFold w c l = c ∨ bestFold w c l ∈ l := by
  intro l
  induction l with
  | nil => intro c; exact Or.inl rfl
  | cons x l ih =>
    intro c
    rw [bestFold_cons]
    by_cases hb : betterCand w x c = true
    · rw [if_pos hb]
      rcases ih x with h | h
      · exact Or.inr (by rw [h]; exact List.mem_cons_self x l)
      · exact Or.inr (List.mem_cons_of_mem x h)
    · rw [if_neg hb]
      rcases ih c with h | h
      · exact Or.inl h
      · exact Or.inr (List.mem_cons_of_mem x h)

/-- A fuzzy-match result always comes from the candidate list. -/
lemma gcm_mem {w : Str} {l : List Str} {m : Str}
    (h : get_close_matches1 w l = some m) : m ∈ l := by
  unfold get_close_matches1 at h
  cases hf : l.filter (fun x => cutoffOk x w) with
  | nil => rw [hf] at h; exact absurd h (by simp)
  | cons c cs =>
    rw [hf] at h
    have hm : m = bestFold w c cs := by
      simpa using h.symm
    have hcl : c ∈ l := by
      have : c ∈ l.filter (fun x => cutoffOk x w) := by
        rw [hf]; exact List.mem_cons_self c cs
      exact List.mem_of_mem_filter this
    rcases bestFold_mem w cs c with he | he
    · rw [hm, he]; exact hcl
    · have : m ∈ l.filter (fun x => cutoffOk x w) := by
        rw [hf]; exact List.mem_cons_of_mem c (hm ▸ he)
      exact List.mem_of_mem_filter this

/-- The resolver result is the normalized input or a pantry set member. -/
lemma resolver_result_cases (st : PantryState) (v : Str) :
    validate_ingredient_name st v = pyStrip (lowerStr v) ∨
      validate_ingredient_name st v ∈ st.names := by
  unfold validate_ingredient_name
  by_cases hm : pyStrip (lowerStr v) ∈ st.names
  · rw [if_pos hm]
    exact Or.inl rfl
  · rw [if_neg hm]
    cases hc : get_close_matches1 (pyStrip (lowerStr v)) st.names with
    | some m => exact Or.inr (gcm_mem hc)
    | none =>
      cases hfind : st.names.find?
          (fun p => strIn (pyStrip (lowerStr v)) p ||
            strIn p (pyStrip (lowerStr v))) with
      | some p => exact Or.inr (List.mem_of_find?_eq_some hfind)
      | none => exact Or.inl rfl

/-- Claim C10: for a pantry index rebuilt from any snapshot, the resolver
result is always fully lower-cased on every return path, so the
`get_pantry_id` lookup (which lower-cases its argument) probes the map with
exactly the resolver result — the same key form the index was built
with. -/
theorem C10_resolver_result_lowercase (old : PantryState)
    (snap : List PantryItem) (raw : Str) :
    lowerStr (validate_ingredient_name (set_pantry_memory old snap) raw) =
      validate_ingredient_name (set_pantry_memory old snap) raw ∧
    get_pantry_id (set_pantry_memory old snap)
        (validate_ingredient_name (set_pantry_memory old snap) raw) =
      dictGet (set_pantry_memory old snap).map
        (validate_ingredient_name (set_pantry_memory old snap) raw) := by
  have hlow : lowerStr (validate_ingredient_name
      (set_pantry_memory old snap) raw) =
      validate_ingredient_name (set_pantry_memory old snap) raw := by
    rcases resolver_result_cases (set_pantry_memory old snap) raw with h | h
    · rw [h]
      exact lowerStr_pyStrip_lowerStr raw
    · obtain ⟨it, _, hit⟩ :=
        ((build_names snap ⟨[], []⟩ _).mp h).resolve_left (by simp)
      rw [← hit]
      apply lowerStr_fixed
      intro c hc
      obtain ⟨d, _, hd⟩ := List.mem_map.mp hc
      rw [← hd]
      exact lowerChar_idem d
  refine ⟨hlow, ?_⟩
  unfold get_pantry_id
  rw [hlow]

/-! ### Model of `json.loads` and the JSON extractor

The extractor `extract_json_from_text` (`ai_engine.py` lines 240-271)
delegates to `json.loads`, modelled here as a fuel-based recursive-descent
parser following the Python `json.decoder`/`json.scanner` grammar: optional
leading and trailing whitespace (space, tab, newline, carriage return),
objects, arrays, strings with escape sequences (including surrogate
pairs), numbers (kept as their source lexeme, which is enough to settle
the claims and avoids modelling floats), `true`/`false`/`null` and the
Python extensions `NaN`/`Infinity`/`-Infinity`, with the strict-mode
rejection of unescaped control characters inside strings.  Duplicate
object keys overwrite like Python `dict(pairs)`. -/

/-- The model JSON value type produced by the `json.loads` model. -/
inductive Json where
  | null : Json
  | bool (b : Bool) : Json
  | num (lex : Str) : Json
  | str (s : Str) : Json
  | arr (xs : List Json) : Json
  | obj (kvs : List (Str × Json)) : Json

/-- The character `"\x7b"` (left curly brace). -/
def lbrace : Char := Char.ofNat 123

/-- The character `"\x7d"` (right curly brace). -/
def rbrace : Char := Char.ofNat 125

/-- JSON whitespace per Python's decoder (space, tab, newline, return). -/
def isJsonWs (c : Char) : Bool :=
  c = ' ' || c = '\t' || c = '\n' || c = '\r'

/-- Skip leading JSON whitespace. -/
def skipWs (s : Str) : Str := s.dropWhile isJsonWs

/-- Value of one hexadecimal digit. -/
def hexVal (c : Char) : Option Nat :=
  if 48 ≤ c.toNat ∧ c.toNat ≤ 57 then some (c.toNat - 48)
  else if 97 ≤ c.toNat ∧ c.toNat ≤ 102 then some (c.toNat - 87)
  else if 65 ≤ c.toNat ∧ c.toNat ≤ 70 then some (c.toNat - 55)
  else none

/-- Parse exactly four hex digits. -/
def parseHex4 : Str → Option (Nat × Str)
  | a :: b :: c :: d :: rest =>
    match hexVal a, hexVal b, hexVal c, hexVal d with
    | some va, some vb, some vc, some vd =>
      some (((va * 16 + vb) * 16 + vc) * 16 + vd, rest)
    | _, _, _, _ => none
  | _ => none

/-- Single-character escapes accepted after a backslash. -/
def escMap (c : Char) : Option Char :=
  if c = '"' then some '"'
  else if c = '\\' then some '\\'
  else if c = '/' then some '/'
  else if c = 'b' then some (Char.ofNat 8)
  else if c = 'f' then some (Char.ofNat 12)
  else if c = 'n' then some '\n'
  else if c = 'r' then some '\r'
  else if c = 't' then some '\t'
  else none

/-- Model of the scanner's `scanstring` (strict mode): input starts after
the opening quote; returns the decoded content and the rest after the
closing quote. -/
def scanStr : Nat → Str → Option (Str × Str)
  | 0, _ => none
  | fuel + 1, s =>
    match s with
    | [] => none
    | c :: rest =>
      if c = '"' then some ([], rest)
      else if c = '\\' then
        match rest with
        | [] => none
        | e :: rest2 =>
          if e = 'u' then
            match parseHex4 rest2 with
            | none => none
            | some (n, rest3) =>
              if 55296 ≤ n ∧ n ≤ 56319 then
                match rest3 with
                | '\\' :: 'u' :: rest4 =>
                  match parseHex4 rest4 with
                  | some (n2, rest5) =>
                    if 56320 ≤ n2 ∧ n2 ≤ 57343 then
                      match scanStr fuel rest5 with
                      | some (out, r) =>
                        some (Char.ofNat
                          (65536 + (n - 55296) * 1024 + (n2 - 56320)) :: out,
                          r)
                      | none => none
                    else
                      match scanStr fuel rest3 with
                      | some (out, r) => some (Char.ofNat n :: out, r)
                      | none => none
                  | none =>
                    match scanStr fuel rest3 with
                    | some (out, r) => some (Char.ofNat n :: out, r)
                    | none => none
                | _ =>
                  match scanStr fuel rest3 with
                  | some (out, r) => some (Char.ofNat n :: out, r)
                  | none => none
              else
                match scanStr fuel rest3 with
                | some (out, r) => some (Char.ofNat n :: out, r)
                | none => none
          else
            match escMap e with
            | some ec =>
              match scanStr fuel rest2 with
              | some (out, r) => some (ec :: out, r)
              | none => none
            | none => none
      else if c.toNat < 32 then none
      else
        match scanStr fuel rest with
        | some (out, r) => some (c :: out, r)
        | none => none

/-- Is `c` an ASCII decimal digit? -/
def isDig (c : Char) : Bool := 48 ≤ c.toNat && c.toNat ≤ 57

/-- Model of the scanner's `NUMBER_RE` maximal match at the start of `s`:
optional minus, `0` or a nonzero-led digit run, optional `.digits`,
optional exponent; returns the lexeme and the rest. -/
def scanNumber (s : Str) : Option (Str × Str) :=
  let core : Str → Option (Str × Str) := fun u =>
    match u with
    | [] => none
    | c :: rest =>
      if c = '0' then some ([c], rest)
      else if isDig c && !(c = '0') then
        some (c :: rest.takeWhile isDig, rest.dropWhile isDig)
      else none
  let withSign : Option (Str × Str) :=
    match s with
    | '-' :: rest =>
      match core rest with
      | some (lex, r) => some ('-' :: lex, r)
      | none => none
    | _ => core s
  match withSign with
  | none => none
  | some (lexInt, r1) =>
    let afterFrac : Str × Str :=
      match r1 with
      | '.' :: r2 =>
        let ds := r2.takeWhile isDig
        if ds = [] then (lexInt, r1)
        else (lexInt ++ '.' :: ds, r2.dropWhile isDig)
      | _ => (lexInt, r1)
    let lexF := afterFrac.1
    let r3 := afterFrac.2
    match r3 with
    | e :: r4 =>
      if e = 'e' ∨ e = 'E' then
        match r4 with
        | sg :: r5 =>
          if sg = '+' ∨ sg = '-' then
            let ds := r5.takeWhile isDig
            if ds = [] then some (lexF, r3)
            else some (lexF ++ e :: sg :: ds, r5.dropWhile isDig)
          else
            let ds := r4.takeWhile isDig
            if ds = [] then some (lexF, r3)
            else some (lexF ++ e :: ds, r4.dropWhile isDig)
        | [] => some (lexF, r3)
      else some (lexF, r3)
    | [] => some (lexF, r3)

/-- Insert a parsed object member with Python `dict(pairs)` semantics
(duplicate key: value overwritten, original position kept). -/
def objInsert (m : List (Str × Json)) (k : Str) (v : Json) :
    List (Str × Json) :=
  match m with
  | [] => [(k, v)]
  | (k', v') :: rest =>
    if k' = k then (k', v) :: rest else (k', v') :: objInsert rest k v

mutual

/-- Model of the scanner's `scan_once`: parse one JSON value at the start
of `s` (no leading whitespace expected). -/
def pVal : Nat → Str → Option (Json × Str)
  | 0, _ => none
  | fuel + 1, s =>
    match s with
    | [] => none
    | c :: rest =>
      if c = '"' then
        match scanStr (rest.length + 1) rest with
        | some (out, r) => some (Json.str out, r)
        | none => none
      else if c = lbrace then pObj fuel (skipWs rest)
      else if c = '[' then pArr fuel (skipWs rest)
      else if startsW (("null").data) s then some (Json.null, s.drop 4)
      else if startsW (("true").data) s then some (Json.bool true, s.drop 4)
      else if startsW (("false").data) s then some (Json.bool false, s.drop 5)
      else
        match scanNumber s with
        | some (lex, r) => some (Json.num lex, r)
        | none =>
          if startsW (("NaN").data) s then
            some (Json.num (("NaN").data), s.drop 3)
          else if startsW (("Infinity").data) s then
            some (Json.num (("Infinity").data), s.drop 8)
          else if startsW (("-Infinity").data) s then
            some (Json.num (("-Infinity").data), s.drop 9)
          else none

/-- Object body: input starts after `\x7b` with whitespace skipped. -/
def pObj : Nat → Str → Option (Json × Str)
  | 0, _ => none
  | fuel + 1, s =>
    match s with
    | [] => none
    | c :: rest =>
      if c = rbrace then some (Json.obj [], rest)
      else if c = '"' then pMembers fuel (c :: rest) []
      else none

/-- Object member loop: input starts at the quote of the next key. -/
def pMembers : Nat → Str → List (Str × Json) → Option (Json × Str)
  | 0, _, _ => none
  | fuel + 1, s, acc =>
    match s with
    | [] => none
    | c :: rest =>
      if c = '"' then
        match scanStr (rest.length + 1) rest with
        | none => none
        | some (key, r1) =>
          match skipWs r1 with
          | ':' :: r3 =>
            match pVal fuel (skipWs r3) with
            | none => none
            | some (v, r4) =>
              match skipWs r4 with
              | [] => none
              | c2 :: r6 =>
                if c2 = rbrace then
                  some (Json.obj (objInsert acc key v), r6)
                else if c2 = ',' then
                  pMembers fuel (skipWs r6) (objInsert acc key v)
                else none
          | _ => none
      else none

/-- Array body: input starts after `[` with whitespace skipped. -/
def pArr : Nat → Str → Option (Json × Str)
  | 0, _ => none
  | fuel + 1, s =>
    match s with
    | [] => none
    | c :: rest =>
      if c = ']' then some (Json.arr [], rest)
      else pElems fuel (c :: rest) []

/-- Array element loop: input starts at the next value. -/
def pElems : Nat → Str → List Json → Option (Json × Str)
  | 0, _, _ => none
  | fuel + 1, s, acc =>
    match pVal fuel s with
    | none => none
    | some (v, r1) =>
      match skipWs r1 with
      | [] => none
      | c :: r3 =>
        if c = ']' then some (Json.arr (acc ++ [v]), r3)
        else if c = ',' then pElems fuel (skipWs r3) (acc ++ [v])
        else none

end

/-- Model of Python `json.loads`: skip surrounding whitespace, parse one
value, require the input to be exhausted; `none` models
`json.JSONDecodeError`. -/
def json_loads (t : Str) : Option Json :=
  match pVal (3 * t.length + 3) (skipWs t) with
  | some (j, rest) => if skipWs rest = [] then some j else none
  | none => none

/-- Fuel-based worker for `removeAll`; fuel at least the input length is
always sufficient since every step consumes at least one character. -/
def removeAllF : Nat → Str → Str → Str
  | 0, _, s => s
  | fuel + 1, pat, s =>
    match s with
    | [] => []
    | c :: rest =>
      if pat ≠ [] ∧ startsW pat (c :: rest) = true then
        removeAllF fuel pat ((c :: rest).drop pat.length)
      else c :: removeAllF fuel pat rest

/-- Model of Python `str.replace(pat, "")` with a non-empty pattern:
remove non-overlapping occurrences left to right. -/
def removeAll (pat : Str) (s : Str) : Str := removeAllF s.length pat s

/-- The fence-stripping of extraction strategy 2:
`text.replace("```json", "").replace("```", "").strip()`. -/
def stripFences (t : Str) : Str :=
  pyStrip (removeAll (("```").data) (removeAll (("```json").data) t))

/-- Model of Python `str.find` for a single character (`none` for `-1`). -/
def pyFind (t : Str) (c : Char) : Option Nat :=
  t.findIdx? (fun d => d = c)

/-- Model of Python `str.rfind` for a single character. -/
def pyRFind (t : Str) (c : Char) : Option Nat :=
  (t.reverse.findIdx? (fun d => d = c)).map (fun i => t.length - 1 - i)

/-- The error message raised when every strategy fails. -/
def extractErrMsg (t : Str) : Str :=
  (("Could not extract valid JSON from response: ").data) ++ t.take 100 ++
    (("...").data)

/-- Embedding of `extract_json_from_text(text)` (`ai_engine.py` lines
240-271): try `json.loads` on the verbatim text; then on the text with the
markdown fences removed and surrounding whitespace stripped; then on the
substring from the first `\x7b` to the last `\x7d` when both exist in that
order; otherwise raise `ValueError`. -/
def extract_json_from_text (t : Str) : Except Str Json :=
  match json_loads t with
  | some j => Except.ok j
  | none =>
    match json_loads (stripFences t) with
    | some j => Except.ok j
    | none =>
      match pyFind t lbrace, pyRFind t rbrace with
      | some a, some b =>
        if a < b then
          match json_loads ((t.drop a).take (b + 1 - a)) with
          | some j => Except.ok j
          | none => Except.error (extractErrMsg t)
        else Except.error (extractErrMsg t)
      | some _, none => Except.error (extractErrMsg t)
      | none, _ => Except.error (extractErrMsg t)

/-- Extraction strategy 1 as the specification words it: parse the text
verbatim as JSON. -/
def stratVerbatim (t : Str) : Option Json := json_loads t

/-- Extraction strategy 2 as the specification words it: strip the markdown
fence markers and surrounding whitespace, parse again. -/
def stratFence (t : Str) : Option Json := json_loads (stripFences t)

/-- Extraction strategy 3 as the specification words it: locate the first
`\x7b` and the last `\x7d` in the original text; if both exist and the
first index precedes the second, parse the substring between them
inclusive. -/
def stratBrace (t : Str) : Option Json :=
  match pyFind t lbrace, pyRFind t rbrace with
  | some a, some b =>
    if a < b then json_loads ((t.drop a).take (b + 1 - a)) else none
  | _, _ => none

/-- The extractor as the specification describes it: the three strategies
strictly in order, first success winning, error iff all fail. -/
def extractSpec (t : Str) : Except Str Json :=
  match stratVerbatim t with
  | some j => Except.ok j
  | none =>
    match stratFence t with
    | some j => Except.ok j
    | none =>
      match stratBrace t with
      | some j => Except.ok j
      | none => Except.error (extractErrMsg t)

/-- Claim C4: the extractor tries exactly the three strategies in order
with first success winning (`extractSpec` is that description transcribed
from the specification), returns any valid JSON input's parse unchanged,
and errors exactly when no strategy yields valid JSON. -/
theorem C4_extractor_three_strategies (t : Str) :
    extract_json_from_text t = extractSpec t ∧
    (∀ j : Json, json_loads t = some j →
      extract_json_from_text t = Except.ok j) ∧
    (extract_json_from_text t = Except.error (extractErrMsg t) ↔
      stratVerbatim t = none ∧ stratFence t = none ∧ stratBrace t = none) := by
  refine ⟨?_, ?_, ?_⟩
  · unfold extract_json_from_text extractSpec stratVerbatim stratFence
      stratBrace
    cases json_loads t with
    | some j => rfl
    | none =>
      cases json_loads (stripFences t) with
      | some j => rfl
      | none =>
        cases pyFind t lbrace with
        | none => rfl
        | some a =>
          cases pyRFind t rbrace with
          | none => rfl
          | some b =>
            by_cases hab : a < b
            · simp only [hab, if_true]
            · simp only [hab, if_false]
  · intro j hj
    unfold extract_json_from_text
    rw [hj]
  · unfold extract_json_from_text stratVerbatim stratFence stratBrace
    cases json_loads t with
    | some j => simp
    | none =>
      cases json_loads (stripFences t) with
      | some j => simp
      | none =>
        cases pyFind t lbrace with
        | none => simp
        | some a =>
          cases pyRFind t rbrace with
          | none => simp
          | some b =>
            by_cases hab : a < b
            · simp only [hab, if_true]
              cases json_loads ((t.drop a).take (b + 1 - a)) <;> simp
            · simp only [hab, if_false]
              simp

/-- A concrete JSON object used to instantiate the extractor claims. -/
def sampleObj : Json := Json.obj [((("a").data), Json.num (("1").data))]

/-- Witness for C4 at a concrete input: `\x7b"a": 1\x7d` is valid JSON and
the extractor returns its parse unchanged. -/
theorem C4_extractor_three_strategies_witness :
    extract_json_from_text ((" \x7b\"a\": 1\x7d").data) =
      Except.ok sampleObj :=
  (C4_extractor_three_strategies ((" \x7b\"a\": 1\x7d").data)).2.1
    sampleObj rfl

/-! ### Claim C5: balanced-brace recovery and hard failure -/

/-- Does the string contain no brace characters? -/
def braceFree (s : Str) : Bool :=
  s.all (fun c => !(c = lbrace) && !(c = rbrace))

/-- Brace-counter run: never negative, ending at zero. -/
def braceBalAux : Str → Nat → Bool
  | [], k => decide (k = 0)
  | c :: rest, k =>
    if c = lbrace then braceBalAux rest (k + 1)
    else if c = rbrace then
      match k with
      | 0 => false
      | k' + 1 => braceBalAux rest k'
    else braceBalAux rest k

/-- Is `s` a balanced `\x7b...\x7d` string: starts with `\x7b`, ends with
`\x7d`, with matching brace nesting throughout? -/
def balancedBraces (s : Str) : Bool :=
  decide (s.head? = some lbrace) && decide (s.getLast? = some rbrace) &&
    braceBalAux s 0

/-- Does position range `[a, b)` give the only balanced-brace slice of
`t`?  (Decidable form of "contains exactly one balanced substring".) -/
def balancedSliceUnique (t : Str) (a b : Nat) : Bool :=
  (List.range (t.length + 1)).all fun i =>
    (List.range (t.length + 2)).all fun j =>
      !(balancedBraces ((t.drop i).take (j - i))) ||
        (decide (i = a) && decide (j = b))

/-- The counterexample input `[\x7b"a": 1\x7d]` of claim C5. -/
def cexT : Str := ("[\x7b\"a\": 1\x7d]").data

/-- Claim C5, counterexample: the input `[\x7b"a": 1\x7d]` contains exactly
one balanced `\x7b...\x7d` substring (at positions 1-8) with brace-free
surrounding prose `[` and `]`, and that substring parses to the object
`\x7b"a": 1\x7d`; but the extractor does not recover that substring's
parsed form — the whole text is itself valid JSON, so strategy 1 returns
the surrounding array instead. -/
theorem C5_counterexample_prose_brackets :
    cexT = ("[").data ++ (("\x7b\"a\": 1\x7d").data) ++ ("]").data ∧
    braceFree (("[").data) = true ∧
    braceFree (("]").data) = true ∧
    balancedBraces (("\x7b\"a\": 1\x7d").data) = true ∧
    balancedSliceUnique cexT 1 9 = true ∧
    json_loads (("\x7b\"a\": 1\x7d").data) = some sampleObj ∧
    extract_json_from_text cexT = Except.ok (Json.arr [sampleObj]) ∧
    extract_json_from_text cexT ≠ Except.ok sampleObj := by
  refine ⟨rfl, by decide, by decide, by decide, by decide, rfl, rfl, ?_⟩
  intro h
  rw [show extract_json_from_text cexT = Except.ok (Json.arr [sampleObj])
    from rfl] at h
  simp [sampleObj] at h

lemma braceFree_mem {p : Str} (h : braceFree p = true) {x : Char}
    (hx : x ∈ p) : ¬ x = lbrace ∧ ¬ x = rbrace := by
  have := List.all_eq_true.mp h x hx
  simpa using this

lemma braceFree_no_lbrace {p : Str} (h : braceFree p = true) :
    p.findIdx? (fun d => decide (d = lbrace)) = none := by
  rw [List.findIdx?_eq_none_iff]
  intro x hx
  simpa using (braceFree_mem h hx).1

lemma braceFree_no_rbrace_rev {q : Str} (h : braceFree q = true) :
    q.reverse.findIdx? (fun d => decide (d = rbrace)) = none := by
  rw [List.findIdx?_eq_none_iff]
  intro x hx
  simpa using (braceFree_mem h (List.mem_reverse.mp hx)).2

/-- First-brace position of a brace-free-prose decomposition. -/
lemma pyFind_decomp {p s q : Str} (hp : braceFree p = true)
    (hs : s.head? = some lbrace) :
    pyFind (p ++ s ++ q) lbrace = some p.length := by
  cases s with
  | nil => simp at hs
  | cons c s' =>
    have hc : c = lbrace := by simpa using hs
    subst hc
    unfold pyFind
    rw [List.findIdx?_append, List.findIdx?_append,
      braceFree_no_lbrace hp]
    simp [List.findIdx?_cons]

/-- Last-brace position of a brace-free-prose decomposition. -/
lemma pyRFind_decomp {p s q : Str} (hq : braceFree q = true)
    (hs : s.getLast? = some rbrace) :
    pyRFind (p ++ s ++ q) rbrace = some (p.length + s.length - 1) := by
  have hrev : s.reverse.head? = some rbrace := by
    rw [List.head?_reverse]
    exact hs
  cases hsr : s.reverse with
  | nil => rw [hsr] at hrev; simp at hrev
  | cons c s' =>
    have hc : c = rbrace := by rw [hsr] at hrev; simpa using hrev
    subst hc
    unfold pyRFind
    rw [List.reverse_append, List.reverse_append, List.append_assoc,
      List.findIdx?_append, braceFree_no_rbrace_rev hq,
      List.findIdx?_append, hsr]
    have hslen : s.length = s'.length + 1 := by
      have := congrArg List.length hsr
      simpa using this
    simp only [List.findIdx?_cons]
    simp [List.length_append, List.length_reverse, hslen]
    omega

/-- Claim C5 (amended: the surrounding prose must be brace-free and the
text must not itself parse — verbatim or fence-stripped — as JSON, as the
counterexample forces): under those hypotheses the extractor recovers the
balanced substring's parsed form via the substring strategy; and when the
first-`\x7b`-to-last-`\x7d` substring is malformed JSON, no semantic
repair is attempted and extraction fails with the error. -/
theorem C5_balanced_substring_recovery :
    (∀ (p s q : Str) (j : Json),
      braceFree p = true → braceFree q = true →
      balancedBraces s = true →
      json_loads s = some j →
      json_loads (p ++ s ++ q) = none →
      json_loads (stripFences (p ++ s ++ q)) = none →
      extract_json_from_text (p ++ s ++ q) = Except.ok j) ∧
    (∀ (t : Str) (a b : Nat),
      json_loads t = none →
      json_loads (stripFences t) = none →
      pyFind t lbrace = some a →
      pyRFind t rbrace = some b →
      a < b →
      json_loads ((t.drop a).take (b + 1 - a)) = none →
      extract_json_from_text t = Except.error (extractErrMsg t)) := by
  constructor
  · intro p s q j hp hq hbal hjs h1 h2
    have hhead : s.head? = some lbrace := by
      have := (Bool.and_eq_true .. ).mp hbal
      have := (Bool.and_eq_true .. ).mp this.1
      exact of_decide_eq_true this.1
    have hlast : s.getLast? = some rbrace := by
      have := (Bool.and_eq_true .. ).mp hbal
      have := (Bool.and_eq_true .. ).mp this.1
      exact of_decide_eq_true this.2
    have hs2 : 2 ≤ s.length := by
      cases s with
      | nil => simp at hhead
      | cons c s' =>
        cases s' with
        | nil =>
          have h1' : c = lbrace := by simpa using hhead
          have h2' : c = rbrace := by simpa using hlast
          rw [h1'] at h2'
          exact absurd h2' (by decide)
        | cons d s'' => simp [List.length_cons]
    have hfind := pyFind_decomp (q := q) hp hhead
    have hrfind := pyRFind_decomp (p := p) hq hlast
    have hslice : (((p ++ s ++ q).drop p.length).take
        (p.length + s.length - 1 + 1 - p.length)) = s := by
      have harith : p.length + s.length - 1 + 1 - p.length = s.length := by
        omega
      rw [harith, List.append_assoc, List.drop_left, List.take_left]
    unfold extract_json_from_text
    rw [h1, h2, hfind, hrfind]
    have hlt : p.length < p.length + s.length - 1 := by omega
    simp only [hlt, if_true, hslice, hjs]
  · intro t a b h1 h2 hf hr hab h3
    unfold extract_json_from_text
    rw [h1, h2, hf, hr]
    simp only [hab, if_true, h3]

/-- Witness for the amended C5 at concrete inputs: recovery on
`x \x7b"a": 1\x7d y` and hard failure on `\x7b"a": 1,\x7d` (trailing
comma, no repair). -/
theorem C5_balanced_substring_recovery_witness :
    extract_json_from_text (("x \x7b\"a\": 1\x7d y").data) =
      Except.ok sampleObj ∧
    extract_json_from_text (("\x7b\"a\": 1,\x7d").data) =
      Except.error (extractErrMsg (("\x7b\"a\": 1,\x7d").data)) := by
  constructor
  · exact C5_balanced_substring_recovery.1 (("x ").data)
      (("\x7b\"a\": 1\x7d").data) ((" y").data) sampleObj
      (by decide) (by decide) (by decide) rfl rfl rfl
  · exact C5_balanced_substring_recovery.2 (("\x7b\"a\": 1,\x7d").data)
      0 8 rfl rfl rfl rfl (by decide) rfl

/-! ### Recipe schema validators (`RecipeSchema`, `ai_engine.py` 116-187)

The categorical vocabularies (`cuisines_data`, `diets_data`,
`valid_proteins`, `valid_meal_tags`) are loaded at module import from data
files; the embedding carries them as parameters, so every theorem below
holds for any vocabulary contents. -/

/-- Model of Python `str.upper` on one character (ASCII range). -/
def upperChar (c : Char) : Char :=
  if 97 ≤ c.toNat ∧ c.toNat ≤ 122 then Char.ofNat (c.toNat - 32) else c

/-- Is `c` an ASCII letter (the cased characters of the ASCII model)? -/
def isAsciiAlpha (c : Char) : Bool :=
  (65 ≤ c.toNat && c.toNat ≤ 90) || (97 ≤ c.toNat && c.toNat ≤ 122)

/-- Worker for `pyTitle`: the flag records whether the previous character
was cased. -/
def pyTitleAux : Str → Bool → Str
  | [], _ => []
  | c :: rest, prev =>
    if isAsciiAlpha c then
      (if prev then lowerChar c else upperChar c) :: pyTitleAux rest true
    else c :: pyTitleAux rest false

/-- Model of Python `str.title()` (ASCII range): first letter of every
letter run upper-cased, the rest lower-cased. -/
def pyTitle (s : Str) : Str := pyTitleAux s false

/-- The categorical vocabulary tables loaded at import time. -/
structure Vocab where
  cuisines : List Str
  diets : List Str
  proteins : List Str
  mealTags : List Str

/-- Embedding of `RecipeSchema.validate_protein_type` (lines 127-137):
unknown lower-cased protein falls back to `Vegetarian`, known ones are
returned title-cased. -/
def validate_protein_type (proteins : List Str) (v : Str) : Str :=
  if lowerStr v ∈ proteins then pyTitle v else ("Vegetarian").data

/-- Embedding of `RecipeSchema.validate_meal_types` (lines 139-147): keep
exactly the tags present verbatim in the flattened tag set. -/
def validate_meal_types (mealTags : List Str) (v : List Str) : List Str :=
  v.filter (fun tag => tag ∈ mealTags)

/-- Embedding of `RecipeSchema.validate_cuisine` (lines 149-158): exact
match, else title-cased match, else the fallback `Other`. -/
def validate_cuisine (cuisines : List Str) (v : Str) : Str :=
  if v ∈ cuisines then v
  else if pyTitle v ∈ cuisines then pyTitle v
  else ("Other").data

/-- Embedding of `RecipeSchema.validate_diet` (lines 160-168): lower-cased
match, else the fallback `omnivore`. -/
def validate_diet (diets : List Str) (v : Str) : Str :=
  if lowerStr v ∈ diets then lowerStr v else ("omnivore").data

/-- Embedding of `RecipeSchema.validate_difficulty` (lines 170-187):
title-cased exact match against the three canonical values, then the
substring heuristics in source order, then the fallback `Moderate`. -/
def validate_difficulty (v : Str) : Str :=
  if pyTitle v ∈ [("Simplistic").data, ("Moderate").data,
      ("Elevated").data] then pyTitle v
  else if strIn (("Easy").data) (pyTitle v) ||
      strIn (("Simple").data) (pyTitle v) then ("Simplistic").data
  else if strIn (("Medium").data) (pyTitle v) ||
      strIn (("Hard").data) (pyTitle v) then ("Moderate").data
  else if strIn (("Complex").data) (pyTitle v) ||
      strIn (("Advanced").data) (pyTitle v) ||
      strIn (("Chef").data) (pyTitle v) then ("Elevated").data
  else ("Moderate").data

/-- Embedding of `InstructionSchema.validate_phase` (lines 96-114). -/
def validate_phase (v : Str) : Str :=
  if pyTitle (pyStrip v) ∈ [("Prep").data, ("Cook").data,
      ("Serve").data] then pyTitle (pyStrip v)
  else if strIn (("prep").data) (lowerStr v) then ("Prep").data
  else if strIn (("cook").data) (lowerStr v) ||
      strIn (("heat").data) (lowerStr v) ||
      strIn (("bake").data) (lowerStr v) ||
      strIn (("fry").data) (lowerStr v) then ("Cook").data
  else if strIn (("serve").data) (lowerStr v) ||
      strIn (("plate").data) (lowerStr v) ||
      strIn (("assembl").data) (lowerStr v) then ("Serve").data
  else ("Cook").data

/-- Model of `IngredientSchema` (the `amount` float is carried as an exact
rational; it is passed through unvalidated). -/
structure IngredientSchema where
  name : Str
  amount : ℚ
  unit : Str
deriving DecidableEq

/-- Model of `IngredientGroupSchema`. -/
structure IngredientGroupSchema where
  component : Str
  ingredients : List IngredientSchema
deriving DecidableEq

/-- Model of `InstructionSchema`. -/
structure InstructionSchema where
  phase : Str
  step_number : Int
  text : Str
deriving DecidableEq

/-- Model of the `RecipeSchema` record (both the raw payload shape and the
validated record shape). -/
structure RecipeSchema where
  title : Str
  cuisine : Str
  diet : Str
  difficulty : Str
  cleanup_factor : Int
  protein_type : Str
  meal_types : List Str
  ingredient_groups : List IngredientGroupSchema
  instructions : List InstructionSchema
deriving DecidableEq

/-- Embedding of constructing `RecipeSchema(**data)`: pydantic checks the
`cleanup_factor` bound declared by `Field(..., ge=1, le=5)` — the one
constraint that raises — and runs every field validator, all of which fall
back instead of failing.  The result is the validated record or a
`ValidationError` (the spec's `SchemaError`). -/
def validate_recipe (vocab : Vocab) (st : PantryState) (r : RecipeSchema) :
    Except Str RecipeSchema :=
  if 1 ≤ r.cleanup_factor ∧ r.cleanup_factor ≤ 5 then
    Except.ok
      { title := r.title
        cuisine := validate_cuisine vocab.cuisines r.cuisine
        diet := validate_diet vocab.diets r.diet
        difficulty := validate_difficulty r.difficulty
        cleanup_factor := r.cleanup_factor
        protein_type := validate_protein_type vocab.proteins r.protein_type
        meal_types := validate_meal_types vocab.mealTags r.meal_types
        ingredient_groups := r.ingredient_groups.map (fun g =>
          { component := g.component
            ingredients := g.ingredients.map (fun ing =>
              { ing with name := validate_ingredient_name st ing.name }) })
        instructions := r.instructions.map (fun ins =>
          { ins with phase := validate_phase ins.phase }) }
  else Except.error (("cleanup_factor out of range 1..5").data)

/-- Difficulty normalization as the specification words it: a title-cased
exact match against the three canonical values is returned as is; otherwise
the substring heuristics in order — easy/simple, then medium/hard, then
complex/advanced/chef — with the first matching rule winning; otherwise the
fallback `Moderate`. -/
def normalizeDifficultySpec (v : Str) : Str :=
  if pyTitle v = ("Simplistic").data ∨ pyTitle v = ("Moderate").data ∨
      pyTitle v = ("Elevated").data then pyTitle v
  else if strIn (("Easy").data) (pyTitle v) ||
      strIn (("Simple").data) (pyTitle v) then ("Simplistic").data
  else if strIn (("Medium").data) (pyTitle v) ||
      strIn (("Hard").data) (pyTitle v) then ("Moderate").data
  else if strIn (("Complex").data) (pyTitle v) ||
      strIn (("Advanced").data) (pyTitle v) ||
      strIn (("Chef").data) (pyTitle v) then ("Elevated").data
  else ("Moderate").data

/-- Claim C7: difficulty normalization follows exactly the spec's cascade
(title-cased exact match, then the ordered substring heuristics, then the
`Moderate` fallback, never raising — it is a total function), and in
particular `hard` normalizes to `Moderate` and `chef level` to
`Elevated`. -/
theorem C7_difficulty_normalization :
    (∀ v : Str, validate_difficulty v = normalizeDifficultySpec v) ∧
    validate_difficulty (("hard").data) = ("Moderate").data ∧
    validate_difficulty (("chef level").data) = ("Elevated").data := by
  refine ⟨?_, by decide, by decide⟩
  intro v
  unfold validate_difficulty normalizeDifficultySpec
  simp only [List.mem_cons, List.not_mem_nil, or_false]

/-- Claim C6: recipe assembly fails (with the spec's `SchemaError`, i.e. a
pydantic `ValidationError`) exactly when `cleanup_factor` is outside the
inclusive range `[1, 5]`; the field is never coerced — a returned record
carries the payload's value unchanged. -/
theorem C6_cleanup_factor_never_coerced (vocab : Vocab) (st : PantryState)
    (r : RecipeSchema) :
    ((∃ e, validate_recipe vocab st r = Except.error e) ↔
      ¬(1 ≤ r.cleanup_factor ∧ r.cleanup_factor ≤ 5)) ∧
    (∀ out, validate_recipe vocab st r = Except.ok out →
      out.cleanup_factor = r.cleanup_factor) := by
  unfold validate_recipe
  by_cases h : 1 ≤ r.cleanup_factor ∧ r.cleanup_factor ≤ 5
  · rw [if_pos h]
    refine ⟨by simp [h], ?_⟩
    intro out hout
    cases hout
    rfl
  · rw [if_neg h]
    refine ⟨by simp [h], ?_⟩
    intro out hout
    exact absurd hout (by simp)

/-- An empty vocabulary and pantry for instantiating the claims. -/
def vocab0 : Vocab := ⟨[], [], [], []⟩

/-- The empty pantry state. -/
def pantry0 : PantryState := ⟨[], []⟩

/-- A minimal payload with the given cleanup factor. -/
def mkPayload (k : Int) : RecipeSchema :=
  ⟨[], [], [], [], k, [], [], [], []⟩

/-- Witness for C6 at cleanup factors 0, 6 (both rejected) and 3
(accepted, value preserved). -/
theorem C6_cleanup_factor_never_coerced_witness :
    (∃ e, validate_recipe vocab0 pantry0 (mkPayload 0) = Except.error e) ∧
    (∃ e, validate_recipe vocab0 pantry0 (mkPayload 6) = Except.error e) ∧
    ¬(∃ e, validate_recipe vocab0 pantry0 (mkPayload 3) = Except.error e) := by
  refine ⟨?_, ?_, ?_⟩
  · exact (C6_cleanup_factor_never_coerced vocab0 pantry0
      (mkPayload 0)).1.mpr (by decide)
  · exact (C6_cleanup_factor_never_coerced vocab0 pantry0
      (mkPayload 6)).1.mpr (by decide)
  · intro h
    exact absurd ((C6_cleanup_factor_never_coerced vocab0 pantry0
      (mkPayload 3)).1.mp h) (by decide)

/-- A small concrete vocabulary for the policy claims. -/
def vocab1 : Vocab :=
  ⟨[("Italian").data], [("omnivore").data], [("chicken").data],
    [("Dinner").data]⟩

/-- A pantry holding only `rice`. -/
def pantry1 : PantryState :=
  set_pantry_memory pantry0
    [⟨("7").data, ("Rice").data, ("Grain").data, ("g").data, []⟩]

/-- A payload with an invalid cuisine, invalid diet, invalid protein, a
partially invalid tag list and an unmatched ingredient name. -/
def payload1 : RecipeSchema :=
  { title := ("Test Dish").data
    cuisine := ("Klingon").data
    diet := ("stonefruit").data
    difficulty := ("hard").data
    cleanup_factor := 2
    protein_type := ("mystery").data
    meal_types := [("Dinner").data, ("Nonsense").data]
    ingredient_groups :=
      [⟨("Main").data, [⟨("unobtainium").data, 1, ("g").data⟩]⟩]
    instructions := [⟨("Prep").data, 1, ("chop").data⟩] }

/-- The record the lenient validators actually produce for `payload1`. -/
def validated1 : RecipeSchema :=
  { title := ("Test Dish").data
    cuisine := ("Other").data
    diet := ("omnivore").data
    difficulty := ("Moderate").data
    cleanup_factor := 2
    protein_type := ("Vegetarian").data
    meal_types := [("Dinner").data]
    ingredient_groups :=
      [⟨("Main").data, [⟨("unobtainium").data, 1, ("g").data⟩]⟩]
    instructions := [⟨("Prep").data, 1, ("chop").data⟩] }

/-- Claim C8, counterexample: the source has no policy configuration, and
the single behavior it implements is the lenient one — on a payload whose
cuisine, diet and protein are invalid, whose tag list is partially
invalid, and whose ingredient is unmatched (resolved to an import name),
assembly does not raise `SchemaError` but returns a fallback-filled
record.  No configuration selecting a strict first-invalid-field failure
exists in the code. -/
theorem C8_counterexample_no_strict_policy :
    validate_recipe vocab1 pantry1 payload1 = Except.ok validated1 := by
  rfl

/-- Claim C8 (amended: the pipeline implements exactly one policy, the
lenient one, with no configuration switch): for every vocabulary, pantry
and payload with an in-range cleanup factor, assembly applies the fallback
table and the resolver's import-name behavior and always returns a
record. -/
theorem C8_single_lenient_policy (vocab : Vocab) (st : PantryState)
    (r : RecipeSchema) (h1 : 1 ≤ r.cleanup_factor)
    (h2 : r.cleanup_factor ≤ 5) :
    ∃ out, validate_recipe vocab st r = Except.ok out := by
  unfold validate_recipe
  rw [if_pos ⟨h1, h2⟩]
  exact ⟨_, rfl⟩

/-- Witness for the amended C8 at the concrete `payload1`. -/
theorem C8_single_lenient_policy_witness :
    1 ≤ payload1.cleanup_factor ∧ payload1.cleanup_factor ≤ 5 ∧
    ∃ out, validate_recipe vocab1 pantry1 payload1 = Except.ok out :=
  ⟨by decide, by decide,
    C8_single_lenient_policy vocab1 pantry1 payload1 (by decide) (by decide)⟩

end BYM
